import Mathlib

/-!
# Verification of the ALEX numerical library core

Shallow embedding of the ALEX C library (factorial/combinatorics, interval
integration rules, numeric differentiation and secant root finding, and the
polynomial algebra engine) together with proofs checking the library's
specification against the code.

Modelling conventions:
* C `double` values are modelled as exact rationals (`ℚ`); every arithmetic
  step of the source is mirrored on `ℚ`.  IEEE rounding, infinities and NaNs
  are outside the model.
* C `unsigned int` / `unsigned long` arithmetic is modelled on `ℕ` with an
  explicit reduction `% 2^32` / `% 2^64` at each operation that can wrap.
* The process-wide status cell (`flags.h`) is threaded explicitly: an
  operation receives the current flag value and returns its result paired
  with the flag value left behind.  Operations that never touch the cell
  return the incoming flag unchanged.
* Pointers are not modelled; polynomial and range values are passed by
  value, which matches the non-null, allocation-succeeds executions of the
  C code.  `malloc`-failure branches are therefore absent.
-/

/-! ## Status flags (`flags.h`) -/

def ALEX_OK_FLAG : ℕ := 0

def ALEX_BAD_ALLOC_FLAG : ℕ := 101

def ALEX_INV_PARAM_FLAG : ℕ := 102

def ALEX_ALG_INV_OP_FLAG : ℕ := 201

def ALEX_POLY_INDEX_GT_DEG_FLAG : ℕ := 401

def ALEX_FACT_OVERFLOW_FLAG : ℕ := 501

def ALEX_INV_RANGE_FLAG : ℕ := 506

def ALEX_NEG_DX : ℕ := 601

/-- Modelled from the spec: `alex_set_flag` is implemented in `flags.c`,
which is not among the provided sources; `flags.h` documents a single
process-wide status cell that every call to `alex_set_flag` overwrites.
With the cell threaded explicitly, setting it replaces the current value. -/
def alex_set_flag (f : ℕ) (flag : ℕ) : ℕ := f

/-! ## Machine-integer moduli -/

def UINT_MOD : ℕ := 2 ^ 32

def ULONG_MOD : ℕ := 2 ^ 64

/-! ## Combinatorics (`func.c`)

`alex_fact`: `res = 1; for (i = 0; i < x; ++i) { res *= i; if (res <= i)
{ set overflow flag; return 0; } } set OK flag; return res * x;`.
The loop body is `factLoop` over the index list `[0, 1, …, x-1]`, with
`Except.error` standing for the early `return 0` on the overflow test. -/

def factLoop (mod : ℕ) : List ℕ → ℕ → Except Unit ℕ
  | [], res => Except.ok res
  | i :: rest, res =>
    let res1 := res * i % mod
    if res1 ≤ i then Except.error () else factLoop mod rest res1

def alex_fact (x : ℕ) (flag : ℕ) : ℕ × ℕ :=
  match factLoop UINT_MOD (List.range x) 1 with
  | Except.error _ => (0, alex_set_flag ALEX_FACT_OVERFLOW_FLAG flag)
  | Except.ok res => (res * x % UINT_MOD, alex_set_flag ALEX_OK_FLAG flag)

def alex_factl (x : ℕ) (flag : ℕ) : ℕ × ℕ :=
  match factLoop ULONG_MOD (List.range x) 1 with
  | Except.error _ => (0, alex_set_flag ALEX_FACT_OVERFLOW_FLAG flag)
  | Except.ok res => (res * x % ULONG_MOD, alex_set_flag ALEX_OK_FLAG flag)

/-! ## Intervals and bin state (`func.c`) -/

structure AlexRange where
  min : ℚ
  max : ℚ
deriving DecidableEq

def ALEX_DEFAULT_NBINS : ℕ := 1000

/-- `alex_set_bins`: sets the OK flag, then stores `n` as the new bin count.
Result is the pair (new bin count, new flag). -/
def alex_set_bins (n : ℕ) (nbins : ℕ) (flag : ℕ) : ℕ × ℕ :=
  (n, alex_set_flag ALEX_OK_FLAG flag)

/-- `alex_get_bins`: reads the bin count; does not touch the flag cell. -/
def alex_get_bins (nbins : ℕ) (flag : ℕ) : ℕ × ℕ :=
  (nbins, flag)

/-- `alex_range_abs`: `range->max - range->min`; does not touch the flag cell. -/
def alex_range_abs (r : AlexRange) (flag : ℕ) : ℚ × ℕ :=
  (r.max - r.min, flag)

/-- `alex_integrate_bins`: `step = width / nbins`; then
`for (cur = min; cur <= max; cur += step) area += step * f(cur);` and the
OK flag is set.  In exact rational arithmetic `cur` after `k` increments is
exactly `min + k * step`, so for `step > 0` the loop runs for
`k = 0, …, ⌊width / step⌋` and terminates.  For `step ≤ 0` (zero-width range,
or `nbins = 0`, where the C code divides by zero and produces an infinity)
the rational model has no value: the result is `none`. -/
def alex_integrate_bins (f : ℚ → ℚ) (r : AlexRange) (nbins : ℕ) (flag : ℕ) :
    Option (ℚ × ℕ) :=
  let step := (r.max - r.min) / (nbins : ℚ)
  if 0 < step then
    let m := Nat.floor ((r.max - r.min) / step) + 1
    some (∑ k in Finset.range m, step * f (r.min + (k : ℚ) * step),
      alex_set_flag ALEX_OK_FLAG flag)
  else none

/-- `alex_integrate_rect` (`func.c`, lines 125-149): rejects negative
`subintervals` with `ALEX_INV_PARAM_FLAG`, sets OK otherwise; for
`subintervals = 0` returns `width * f((min+max)/2)`; else divides the width
by `subintervals` and accumulates `mid += min + k*head` for
`k = 1, …, subintervals-1`, returning `head * f((min+max)/2 + mid)` —
a single evaluation of `f` at the accumulated point. -/
def alex_integrate_rect (f : ℚ → ℚ) (r : AlexRange) (subintervals : ℤ)
    (flag : ℕ) : ℚ × ℕ :=
  if subintervals < 0 then (0, alex_set_flag ALEX_INV_PARAM_FLAG flag)
  else
    let flag1 := alex_set_flag ALEX_OK_FLAG flag
    let head := r.max - r.min
    let body := r.min + r.max
    if subintervals = 0 then (head * f (body / 2), flag1)
    else
      let n := subintervals.toNat
      let head1 := head / (n : ℚ)
      let mid := ∑ j in Finset.range (n - 1), (r.min + ((j : ℚ) + 1) * head1)
      (head1 * f (body / 2 + mid), flag1)

/-- `alex_integrate_trap` (`func.c`, lines 151-174): rejects negative
`subintervals` with `ALEX_INV_PARAM_FLAG`, sets OK otherwise; for
`subintervals = 0` returns `width * (f(min)+f(max))/2`; else accumulates
`mid += f(min + k*head)` for `k = 1, …, subintervals-1` and returns
`head * ((f(min)+f(max))/2 + mid)` — the composite trapezoid rule. -/
def alex_integrate_trap (f : ℚ → ℚ) (r : AlexRange) (subintervals : ℤ)
    (flag : ℕ) : ℚ × ℕ :=
  if subintervals < 0 then (0, alex_set_flag ALEX_INV_PARAM_FLAG flag)
  else
    let flag1 := alex_set_flag ALEX_OK_FLAG flag
    let head := r.max - r.min
    let body := f r.min + f r.max
    if subintervals = 0 then (head * body / 2, flag1)
    else
      let n := subintervals.toNat
      let head1 := head / (n : ℚ)
      let mid := ∑ j in Finset.range (n - 1), f (r.min + ((j : ℚ) + 1) * head1)
      (head1 * (body / 2 + mid), flag1)

/-! ## Numeric differentiation and the secant method (`diff.c`) -/

def ALEX_DEFAULT_DX : ℚ := 1 / 10 ^ 8

/-- One step of the loop body of `alex_secant_method`: from the pair
`(x0, x1)` compute `x2 = x1 - f(x1)*(x1-x0)/(f(x1)-f(x0))` and shift. -/
def secantStep (f : ℚ → ℚ) (p : ℚ × ℚ) : ℚ × ℚ :=
  (p.2, p.2 - f p.2 * (p.2 - p.1) / (f p.2 - f p.1))

/-- `alex_secant_method`: fails with `ALEX_INV_PARAM_FLAG` (returning 0)
when `iterations = 0`; otherwise runs the loop `iterations` times seeded
with `(min, max)` and returns the last computed `x2`.  No flag is set on
the successful path. -/
def alex_secant_method (f : ℚ → ℚ) (r : AlexRange) (iterations : ℕ)
    (flag : ℕ) : ℚ × ℕ :=
  if iterations = 0 then (0, alex_set_flag ALEX_INV_PARAM_FLAG flag)
  else (((secantStep f)^[iterations] (r.min, r.max)).2, flag)

/-- `alex_diff`: forward difference using the stored step `dx_step`; sets
no flag. -/
def alex_diff (f : ℚ → ℚ) (x : ℚ) (dx_step : ℚ) (flag : ℕ) : ℚ × ℕ :=
  ((f (x + dx_step) - f x) / dx_step, flag)

/-- `alex_set_dx`: rejects `dx < 0` with `ALEX_NEG_DX`, leaving the stored
step unchanged; otherwise stores `dx` and sets OK.  Result is the pair
(new stored step, new flag). -/
def alex_set_dx (dx : ℚ) (dx_step : ℚ) (flag : ℕ) : ℚ × ℕ :=
  if dx < 0 then (dx_step, alex_set_flag ALEX_NEG_DX flag)
  else (dx, alex_set_flag ALEX_OK_FLAG flag)

/-- `alex_get_dx`: reads the stored step; does not touch the flag cell. -/
def alex_get_dx (dx_step : ℚ) (flag : ℕ) : ℚ × ℕ :=
  (dx_step, flag)

/-! ## Polynomials (`poly.c`)

A polynomial is a stored degree plus a coefficient array of `deg + 1`
doubles.  Flag effects are threaded only for the accessors whose flag
behaviour the specification discusses (`alex_poly_coeff`, `alex_poly_lead`);
the remaining algebra operations always end in `alex_set_flag(ALEX_OK_FLAG)`
on the modelled (non-null, allocation-succeeds) path and are given
value-level. -/

structure AlexPoly where
  deg : ℕ
  coeffs : List ℚ
deriving DecidableEq

/-- `alex_make_poly`: copies entries `0, …, deg` of the supplied coefficient
array into a fresh polynomial. -/
def alex_make_poly (deg : ℕ) (coeffs : ℕ → ℚ) : AlexPoly :=
  ⟨deg, (List.range (deg + 1)).map coeffs⟩

/-- `alex_poly_lead` (non-null path): sets OK and returns `coeffs[deg]`. -/
def alex_poly_lead (p : AlexPoly) (flag : ℕ) : ℚ × ℕ :=
  (p.coeffs.getD p.deg 0, alex_set_flag ALEX_OK_FLAG flag)

/-- `alex_poly_coeff`: when `index > deg` it sets
`ALEX_POLY_INDEX_GT_DEG_FLAG` and then returns `alex_poly_lead(poly)` —
whose own `alex_set_flag(ALEX_OK_FLAG)` runs afterwards; otherwise sets OK
and returns `coeffs[index]`. -/
def alex_poly_coeff (p : AlexPoly) (index : ℕ) (flag : ℕ) : ℚ × ℕ :=
  if p.deg < index then
    alex_poly_lead p (alex_set_flag ALEX_POLY_INDEX_GT_DEG_FLAG flag)
  else (p.coeffs.getD index 0, alex_set_flag ALEX_OK_FLAG flag)

/-- `alex_poly_diff`: for `deg = 0` the zero polynomial of degree 0;
otherwise a polynomial of degree `deg - 1` with
`coeffs[i] = poly->coeffs[i+1] * (i+1)` for `i = 0, …, deg-1`. -/
def alex_poly_diff (p : AlexPoly) : AlexPoly :=
  if p.deg = 0 then alex_make_poly 0 (fun _ => 0)
  else alex_make_poly (p.deg - 1)
    (fun i => p.coeffs.getD (i + 1) 0 * ((i : ℚ) + 1))

/-- `alex_poly_integ` (non-null path): a polynomial of degree `deg + 1`
with `coeffs[0] = c` and `coeffs[i+1] = poly->coeffs[i] / (i+1)` for
`i = 0, …, deg`. -/
def alex_poly_integ (p : AlexPoly) (c : ℚ) : AlexPoly :=
  alex_make_poly (p.deg + 1)
    (fun j => if j = 0 then c else p.coeffs.getD (j - 1) 0 / (j : ℚ))

/-- `alex_poly_cmp` (non-null paths): sets OK; if the degrees differ,
returns their (signed) difference; otherwise returns `deg + 1 - i` at the
first index `i` whose coefficients differ, and 0 when none does. -/
def alex_poly_cmp (p q : AlexPoly) (flag : ℕ) : ℤ × ℕ :=
  let flag1 := alex_set_flag ALEX_OK_FLAG flag
  if p.deg ≠ q.deg then ((p.deg : ℤ) - (q.deg : ℤ), flag1)
  else
    match (List.range (p.deg + 1)).find?
        (fun i => p.coeffs.getD i 0 ≠ q.coeffs.getD i 0) with
    | some i => ((p.deg : ℤ) + 1 - (i : ℤ), flag1)
    | none => (0, flag1)

/-! ## Specification-side definitions (for refinement comparison) -/

/-- Modelled from the spec wording of the composite midpoint rule claim:
the sum over the `n` equal pieces of the sub-width times `f` evaluated at
that piece's midpoint.  Stated for comparison with `alex_integrate_rect`. -/
def compositeMidpointRule (f : ℚ → ℚ) (r : AlexRange) (n : ℕ) : ℚ :=
  ∑ k in Finset.range n,
    ((r.max - r.min) / (n : ℚ)) *
      f (r.min + ((k : ℚ) + 1 / 2) * ((r.max - r.min) / (n : ℚ)))

/-- The secant recurrence of the specification: `x₀ = min`, `x₁ = max`,
`x_{k+2} = x_{k+1} - f(x_{k+1})·(x_{k+1} - x_k)/(f(x_{k+1}) - f(x_k))`. -/
def secantSeq (f : ℚ → ℚ) (r : AlexRange) : ℕ → ℚ
  | 0 => r.min
  | 1 => r.max
  | n + 2 =>
    let a := secantSeq f r n
    let b := secantSeq f r (n + 1)
    b - f b * (b - a) / (f b - f a)

/-! ## Helper lemmas -/

lemma alex_make_poly_deg (deg : ℕ) (g : ℕ → ℚ) : (alex_make_poly deg g).deg = deg := rfl

lemma alex_make_poly_getD (deg : ℕ) (g : ℕ → ℚ) (k : ℕ) (hk : k < deg + 1) :
    (alex_make_poly deg g).coeffs.getD k 0 = g k := by
  simp [alex_make_poly, List.getD_eq_getElem?_getD, List.getElem?_map,
    List.getElem?_range hk]

lemma sum_affine (c d : ℚ) (m : ℕ) :
    ∑ j in Finset.range m, (c + (j : ℚ) * d)
      = m * c + (∑ j in Finset.range m, (j : ℚ)) * d := by
  rw [Finset.sum_add_distrib, Finset.sum_const, Finset.card_range, ← Finset.sum_mul]
  simp [nsmul_eq_mul]

lemma midpointSumIdentity (a b : ℚ) (m : ℕ) :
    (a + b) / 2
        + ∑ j in Finset.range m, (a + ((j : ℚ) + 1) * ((b - a) / ((m : ℚ) + 1)))
      = ∑ k in Finset.range (m + 1),
          (a + ((k : ℚ) + 1 / 2) * ((b - a) / ((m : ℚ) + 1))) := by
  have hm : ((m : ℚ) + 1) ≠ 0 := by positivity
  have hh : ((m : ℚ) + 1) * ((b - a) / ((m : ℚ) + 1)) = b - a :=
    mul_div_cancel₀ _ hm
  have e1 : ∑ j in Finset.range m, (a + ((j : ℚ) + 1) * ((b - a) / ((m : ℚ) + 1)))
      = ∑ j in Finset.range m,
          ((a + (b - a) / ((m : ℚ) + 1)) + (j : ℚ) * ((b - a) / ((m : ℚ) + 1))) :=
    Finset.sum_congr rfl (fun j _ => by ring)
  have e2 : ∑ k in Finset.range (m + 1),
        (a + ((k : ℚ) + 1 / 2) * ((b - a) / ((m : ℚ) + 1)))
      = ∑ k in Finset.range (m + 1),
          ((a + (b - a) / ((m : ℚ) + 1) / 2) + (k : ℚ) * ((b - a) / ((m : ℚ) + 1))) :=
    Finset.sum_congr rfl (fun k _ => by ring)
  rw [e1, e2, sum_affine, sum_affine, Finset.sum_range_succ]
  push_cast
  linear_combination (-1 / 2 : ℚ) * hh

lemma alex_integrate_rect_pos (f : ℚ → ℚ) (r : AlexRange) (m : ℕ) (flag : ℕ) :
    alex_integrate_rect f r ((m : ℤ) + 1) flag
      = ((r.max - r.min) / ((m : ℚ) + 1) *
          f ((r.min + r.max) / 2
            + ∑ j in Finset.range m,
                (r.min + ((j : ℚ) + 1) * ((r.max - r.min) / ((m : ℚ) + 1)))),
        ALEX_OK_FLAG) := by
  have h1 : ¬ ((m : ℤ) + 1 < 0) := by omega
  have h2 : ((m : ℤ) + 1) ≠ 0 := by omega
  have h3 : ((m : ℤ) + 1).toNat = m + 1 := by omega
  simp only [alex_integrate_rect, alex_set_flag, if_neg h1, if_neg h2, h3,
    Nat.add_sub_cancel, Nat.cast_add, Nat.cast_one]

lemma alex_integrate_trap_pos (f : ℚ → ℚ) (r : AlexRange) (m : ℕ) (flag : ℕ) :
    alex_integrate_trap f r ((m : ℤ) + 1) flag
      = ((r.max - r.min) / ((m : ℚ) + 1) *
          ((f r.min + f r.max) / 2
            + ∑ j in Finset.range m,
                f (r.min + ((j : ℚ) + 1) * ((r.max - r.min) / ((m : ℚ) + 1)))),
        ALEX_OK_FLAG) := by
  have h1 : ¬ ((m : ℤ) + 1 < 0) := by omega
  have h2 : ((m : ℤ) + 1) ≠ 0 := by omega
  have h3 : ((m : ℤ) + 1).toNat = m + 1 := by omega
  simp only [alex_integrate_trap, alex_set_flag, if_neg h1, if_neg h2, h3,
    Nat.add_sub_cancel, Nat.cast_add, Nat.cast_one]

lemma secant_iterate_eq_secantSeq (f : ℚ → ℚ) (r : AlexRange) (n : ℕ) :
    (secantStep f)^[n + 1] (r.min, r.max)
      = (secantSeq f r (n + 1), secantSeq f r (n + 2)) := by
  induction n with
  | zero => simp [secantStep, secantSeq]
  | succ n ih =>
    rw [Function.iterate_succ_apply', ih]
    simp [secantStep, secantSeq]

/-! ## Claim theorems -/

/-- Claim C1 (code bug): `alex_fact` is supposed to compute the iterative
product with `factorial(0) = 1` and `factorial(5) = 120`, but its loop
multiplies the accumulator by `i` starting from `i = 0`, zeroing it, and the
monotonicity check `res <= i` then fires at once: every input `x ≥ 1` returns
0 with the overflow flag, and `x = 0` returns `res * x = 0` (not 1) with OK.
Same for the 64-bit variant. -/
theorem alex_fact_returns_zero : ∀ (x flag : ℕ),
    alex_fact (x + 1) flag = (0, ALEX_FACT_OVERFLOW_FLAG) ∧
    alex_factl (x + 1) flag = (0, ALEX_FACT_OVERFLOW_FLAG) ∧
    alex_fact 0 flag = (0, ALEX_OK_FLAG) ∧
    alex_fact 5 flag = (0, ALEX_FACT_OVERFLOW_FLAG) := by
  intro x flag
  refine ⟨?_, ?_, ?_, ?_⟩
  · simp [alex_fact, List.range_succ_eq_map, factLoop, alex_set_flag]
  · simp [alex_factl, List.range_succ_eq_map, factLoop, alex_set_flag]
  · simp [alex_fact, factLoop, alex_set_flag]
  · simp [alex_fact, List.range_succ_eq_map, factLoop, alex_set_flag]

/-- Claim C2 (code bug): for `index > degree`, `alex_poly_coeff` returns the
leading coefficient, but the status cell reads OK afterwards, not
`IndexExceedsDegree`: the flag set in the out-of-range branch is immediately
overwritten by the `alex_set_flag(ALEX_OK_FLAG)` inside `alex_poly_lead`.
In-range indices return `coefficients[index]` with OK as claimed. -/
theorem alex_poly_coeff_flag_clobbered : ∀ (p : AlexPoly) (i flag : ℕ),
    alex_poly_coeff p i flag
      = (p.coeffs.getD (if p.deg < i then p.deg else i) 0, ALEX_OK_FLAG) ∧
    alex_poly_coeff ⟨1, [1, 2]⟩ 5 7 = (2, ALEX_OK_FLAG) ∧
    ALEX_OK_FLAG ≠ ALEX_POLY_INDEX_GT_DEG_FLAG := by
  intro p i flag
  refine ⟨?_, ?_, by decide⟩
  · by_cases h : p.deg < i <;>
      simp [alex_poly_coeff, alex_poly_lead, alex_set_flag, h]
  · simp [alex_poly_coeff, alex_poly_lead, alex_set_flag]

/-- Claim C10: `alex_set_bins` never fails: for every `n` (including 0) it
stores `n` as the bin count and sets the OK flag; no validation path
exists. -/
theorem alex_set_bins_never_fails : ∀ (n s flag : ℕ),
    alex_set_bins n s flag = (n, ALEX_OK_FLAG) ∧
    alex_set_bins 0 s flag = (0, ALEX_OK_FLAG) ∧
    (alex_get_bins (alex_set_bins n s flag).1 (alex_set_bins n s flag).2).1 = n ∧
    ALEX_OK_FLAG ≠ ALEX_INV_PARAM_FLAG := by
  intro n s flag
  exact ⟨rfl, rfl, rfl, by decide⟩

/-- Claim C8: for the constant function 1 on `[0, 1]`,
`alex_integrate_trap` returns exactly 1 both without subdivision and with
10 subintervals (exact rational model of the double computation). -/
theorem alex_integrate_trap_const_one_exact : ∀ flag : ℕ,
    alex_integrate_trap (fun _ => 1) ⟨0, 1⟩ 0 flag = (1, ALEX_OK_FLAG) ∧
    alex_integrate_trap (fun _ => 1) ⟨0, 1⟩ 10 flag = (1, ALEX_OK_FLAG) := by
  intro flag
  constructor
  · simp [alex_integrate_trap, alex_set_flag]
  · have h10 : (10 : ℤ) = ((9 : ℕ) : ℤ) + 1 := by norm_num
    rw [h10, alex_integrate_trap_pos]
    norm_num

/-- Claim C3, counterexample: with `f = 1` constantly on `[0, 1]` and
2 subintervals, `alex_integrate_rect` returns `1/2`, while the composite
midpoint rule the claim describes gives `1`: the positive-subintervals
branch is not the composite midpoint sum. -/
theorem alex_integrate_rect_not_midpoint_cex :
    (alex_integrate_rect (fun _ => 1) ⟨0, 1⟩ 2 0).1 = 1 / 2 ∧
    compositeMidpointRule (fun _ => 1) ⟨0, 1⟩ 2 = 1 ∧
    ¬ ((1 : ℚ) / 2 = 1) := by
  refine ⟨?_, ?_, by norm_num⟩
  · have h2 : (2 : ℤ) = ((1 : ℕ) : ℤ) + 1 := by norm_num
    rw [h2, alex_integrate_rect_pos]
    norm_num
  · simp [compositeMidpointRule, Finset.sum_range_succ]

/-- Claim C3, amended: `alex_integrate_rect` fails with `InvalidArgument`
(returning 0) for negative subinterval counts and returns
`width * f(midpoint)` for zero; for `n ≥ 1` subintervals it returns the
sub-width times `f` evaluated ONCE, at the sum of the `n` piece midpoints
(the code's `(min+max)/2 + Σ_{k=1}^{n-1} (min + k·subwidth)` equals that
sum), not the sum of the `n` values of `f` at those midpoints. -/
theorem alex_integrate_rect_spec_amended : ∀ (f : ℚ → ℚ) (r : AlexRange)
    (j m flag : ℕ),
    alex_integrate_rect f r (-((j : ℤ) + 1)) flag = (0, ALEX_INV_PARAM_FLAG) ∧
    alex_integrate_rect f r 0 flag
      = ((r.max - r.min) * f ((r.min + r.max) / 2), ALEX_OK_FLAG) ∧
    alex_integrate_rect f r ((m : ℤ) + 1) flag
      = ((r.max - r.min) / ((m : ℚ) + 1) *
          f (∑ k in Finset.range (m + 1),
              (r.min + ((k : ℚ) + 1 / 2) * ((r.max - r.min) / ((m : ℚ) + 1)))),
        ALEX_OK_FLAG) := by
  intro f r j m flag
  refine ⟨?_, ?_, ?_⟩
  · have hneg : (-((j : ℤ) + 1)) < 0 := by omega
    unfold alex_integrate_rect
    rw [if_pos hneg]
    rfl
  · simp [alex_integrate_rect, alex_set_flag]
  · rw [alex_integrate_rect_pos, midpointSumIdentity]

/-- Claim C4, counterexample: a successful `alex_secant_method` call leaves
the status cell exactly as it was — two identical calls made with different
prior flag values end with those two different values, so the call does not
set the cell to any specific code; `alex_diff` likewise never touches it. -/
theorem alex_flag_discipline_cex :
    (alex_secant_method (fun x => x + 1) ⟨0, 1⟩ 1 102).2 = 102 ∧
    (alex_secant_method (fun x => x + 1) ⟨0, 1⟩ 1 401).2 = 401 ∧
    (102 : ℕ) ≠ 401 ∧
    (alex_diff (fun x => x) 0 1 777).2 = 777 := by
  exact ⟨rfl, rfl, by decide, rfl⟩

/-- Claim C4, amended: `alex_integrate_bins` sets the OK flag on every
terminating call and the pure accessors (`alex_range_abs`, `alex_get_dx`,
`alex_get_bins`) leave the cell unchanged — but `alex_secant_method` leaves
the cell unchanged on every successful call (it only sets it, to
`InvalidArgument`, when `iterations = 0`), and `alex_diff` never sets it. -/
theorem alex_flag_discipline_amended : ∀ (f : ℚ → ℚ) (r : AlexRange)
    (n nb flag : ℕ) (x s : ℚ),
    (alex_secant_method f r (n + 1) flag).2 = flag ∧
    alex_secant_method f r 0 flag = (0, ALEX_INV_PARAM_FLAG) ∧
    (alex_diff f x s flag).2 = flag ∧
    (alex_integrate_bins f r nb flag).map Prod.snd
      = (alex_integrate_bins f r nb flag).map (fun _ => ALEX_OK_FLAG) ∧
    (alex_range_abs r flag).2 = flag ∧
    (alex_get_dx s flag).2 = flag ∧
    (alex_get_bins nb flag).2 = flag := by
  intro f r n nb flag x s
  refine ⟨?_, rfl, rfl, ?_, rfl, rfl, rfl⟩
  · simp [alex_secant_method]
  · simp only [alex_integrate_bins]
    split <;> rfl

/-- Claim C5: differentiating the antiderivative restores the polynomial —
`alex_poly_diff (alex_poly_integ p c)` has degree `deg p` and, for every
index `k ≤ deg p`, its `k`-th coefficient equals `p`'s `k`-th coefficient
exactly (doubles modelled as exact rationals): `(c_k/(k+1))·(k+1) = c_k`.
The added constant `c` is discarded by differentiation. -/
theorem alex_poly_diff_integ_roundtrip : ∀ (p : AlexPoly) (c : ℚ) (k : ℕ),
    p.coeffs.length = p.deg + 1 → k ≤ p.deg →
    (alex_poly_diff (alex_poly_integ p c)).deg = p.deg ∧
    (alex_poly_diff (alex_poly_integ p c)).coeffs.getD k 0
      = p.coeffs.getD k 0 := by
  intro p c k _hlen hk
  have hdeg : (alex_poly_integ p c).deg = p.deg + 1 := rfl
  have hne : ¬ ((alex_poly_integ p c).deg = 0) := by rw [hdeg]; omega
  unfold alex_poly_diff
  rw [if_neg hne, hdeg, Nat.add_sub_cancel]
  refine ⟨rfl, ?_⟩
  rw [alex_make_poly_getD _ _ k (by omega)]
  unfold alex_poly_integ
  rw [alex_make_poly_getD _ _ (k + 1) (by omega)]
  rw [if_neg (Nat.succ_ne_zero k), Nat.add_sub_cancel]
  have hkq : ((k : ℚ) + 1) ≠ 0 := by positivity
  push_cast
  field_simp

/-- Claim C5 witness: the round-trip at `p = 4x + 3`, `c = 7`, `k = 1`. -/
theorem alex_poly_diff_integ_roundtrip_witness :
    (⟨1, [3, 4]⟩ : AlexPoly).coeffs.length = (⟨1, [3, 4]⟩ : AlexPoly).deg + 1 ∧
    1 ≤ (⟨1, [3, 4]⟩ : AlexPoly).deg ∧
    ((alex_poly_diff (alex_poly_integ ⟨1, [3, 4]⟩ 7)).deg
        = (⟨1, [3, 4]⟩ : AlexPoly).deg ∧
      (alex_poly_diff (alex_poly_integ ⟨1, [3, 4]⟩ 7)).coeffs.getD 1 0
        = (⟨1, [3, 4]⟩ : AlexPoly).coeffs.getD 1 0) :=
  ⟨rfl, by decide,
    alex_poly_diff_integ_roundtrip ⟨1, [3, 4]⟩ 7 1 rfl (by decide)⟩

/-- Claim C6, counterexample: with `f(x) = x` on `[0, 1]` and one iteration,
`alex_secant_method` returns `x₂ = 0` of the recurrence, not the claimed
`x_n = x₁ = 1`: `n` iterations advance the sequence to `x_{n+1}`, not `x_n`. -/
theorem alex_secant_method_index_cex :
    (alex_secant_method (fun x => x) ⟨0, 1⟩ 1 0).1 = 0 ∧
    secantSeq (fun x => x) ⟨0, 1⟩ 1 = 1 ∧
    ¬ ((0 : ℚ) = 1) := by
  refine ⟨?_, rfl, by norm_num⟩
  simp [alex_secant_method, secantStep]

/-- Claim C6, amended: for `iterations = n + 1 ≥ 1`, `alex_secant_method`
returns `x_{n+2}` — the result of applying the secant step `n + 1` times to
the seeds `x₀ = min`, `x₁ = max` — and for `iterations = 0` it fails with
`InvalidArgument`, returning 0. -/
theorem alex_secant_method_spec_amended : ∀ (f : ℚ → ℚ) (r : AlexRange)
    (n flag : ℕ),
    (alex_secant_method f r (n + 1) flag).1 = secantSeq f r (n + 2) ∧
    alex_secant_method f r 0 flag = (0, ALEX_INV_PARAM_FLAG) := by
  intro f r n flag
  constructor
  · simp [alex_secant_method, secant_iterate_eq_secantSeq]
  · rfl

/-- Claim C7: `alex_set_dx` with `dx < 0` reports `NegativeStep` and leaves
the stored step (as read back by `alex_get_dx`) unchanged; with `dx ≥ 0` it
stores `dx`, which `alex_get_dx` then returns and `alex_diff` then uses as
its forward-difference step; the process-start default is `1e-8`. -/
theorem alex_set_dx_spec : ∀ (dx s x : ℚ) (flag : ℕ) (f : ℚ → ℚ),
    (dx < 0 →
      alex_set_dx dx s flag = (s, ALEX_NEG_DX) ∧
      (alex_get_dx (alex_set_dx dx s flag).1 (alex_set_dx dx s flag).2).1
        = (alex_get_dx s flag).1) ∧
    (0 ≤ dx →
      alex_set_dx dx s flag = (dx, ALEX_OK_FLAG) ∧
      (alex_get_dx (alex_set_dx dx s flag).1 (alex_set_dx dx s flag).2).1 = dx ∧
      (alex_diff f x (alex_set_dx dx s flag).1 flag).1
        = (f (x + dx) - f x) / dx) ∧
    ALEX_DEFAULT_DX = 1 / 10 ^ 8 := by
  intro dx s x flag f
  refine ⟨?_, ?_, rfl⟩
  · intro h
    simp [alex_set_dx, alex_get_dx, h, alex_set_flag]
  · intro h
    simp [alex_set_dx, alex_get_dx, alex_diff, not_lt.mpr h, alex_set_flag]

/-- Claim C7 witness: `setStep(-1)` with stored step 42 keeps 42 and reports
`NegativeStep`; `setStep(2)` stores 2 and reports OK. -/
theorem alex_set_dx_spec_witness :
    ((-1 : ℚ) < 0 ∧
      (alex_set_dx (-1) 42 0 = (42, ALEX_NEG_DX) ∧
        (alex_get_dx (alex_set_dx (-1) 42 0).1 (alex_set_dx (-1) 42 0).2).1
          = (alex_get_dx 42 0).1)) ∧
    ((0 : ℚ) ≤ 2 ∧
      (alex_set_dx 2 42 0 = (2, ALEX_OK_FLAG) ∧
        (alex_get_dx (alex_set_dx 2 42 0).1 (alex_set_dx 2 42 0).2).1 = 2 ∧
        (alex_diff (fun y => y) 0 (alex_set_dx 2 42 0).1 0).1
          = ((0 + 2) - 0) / 2)) :=
  ⟨⟨by norm_num, (alex_set_dx_spec (-1) 42 0 0 (fun y => y)).1 (by norm_num)⟩,
   ⟨by norm_num, (alex_set_dx_spec 2 42 0 0 (fun y => y)).2.1 (by norm_num)⟩⟩

/-- Claim C9: for polynomials of equal degree, `alex_poly_cmp` is symmetric
in its arguments — the first mismatching index is the same in both scan
orders, so the returned `deg + 1 - i` (or 0) is identical and carries no
information about which argument is larger. -/
theorem alex_poly_cmp_symm_same_deg : ∀ (p q : AlexPoly) (flag : ℕ),
    p.deg = q.deg → alex_poly_cmp p q flag = alex_poly_cmp q p flag := by
  intro p q flag h
  unfold alex_poly_cmp
  have hpred : (fun i => decide (p.coeffs.getD i 0 ≠ q.coeffs.getD i 0))
      = (fun i => decide (q.coeffs.getD i 0 ≠ p.coeffs.getD i 0)) := by
    funext i
    exact decide_eq_decide.mpr ne_comm
  rw [h, hpred]

/-- Claim C9 witness: two degree-1 polynomials differing in the leading
coefficient compare equal in both orders. -/
theorem alex_poly_cmp_symm_same_deg_witness :
    (⟨1, [1, 2]⟩ : AlexPoly).deg = (⟨1, [1, 3]⟩ : AlexPoly).deg ∧
    alex_poly_cmp ⟨1, [1, 2]⟩ ⟨1, [1, 3]⟩ 0
      = alex_poly_cmp ⟨1, [1, 3]⟩ ⟨1, [1, 2]⟩ 0 :=
  ⟨rfl, alex_poly_cmp_symm_same_deg ⟨1, [1, 2]⟩ ⟨1, [1, 3]⟩ 0 rfl⟩
